import Mathlib

/-!
# Verification of the Nightscout glucose-chart processing pipeline

A shallow embedding of the data pipeline of `src/streamlit_app.py`:
fetched JSON entries are turned into a table, sorted by timestamp,
partitioned into calendar-day groups, each day's glucose column is
differenced and smoothed twice, and summary statistics are computed over
the whole fetched range.

Modelling conventions, matching the pandas semantics the script relies on:
* a JSON entry is an `Entry` with optional `date` (epoch milliseconds) and
  optional `sgv` (integer glucose); a missing field is `none`
  (pandas `NaN` / `NaT`);
* `pd.to_datetime(df['date'], unit='ms')` produces timezone-naive UTC
  instants, so `.dt.date` is the UTC calendar day, i.e. floor division of
  the epoch-millisecond value by 86,400,000;
* `df.sort_values('dateTime')` is modelled by an insertion sort on the
  timestamp with missing timestamps placed last (`na_position='last'`);
* `df.groupby('date')` iterates the distinct keys in ascending order,
  dropping rows whose key is missing, each group listing its rows in
  table order;
* `Series.diff()` and `Series.rolling(window=4).mean()` propagate
  undefined (`NaN`) inputs and are undefined while fewer than `window`
  rows have accumulated;
* `Series.min/max/mean/std` skip undefined values; `std` uses the sample
  convention (`ddof=1`) and is undefined on fewer than two values.
-/

namespace Nightscout

/-- One fetched JSON entry: `date` is the epoch-millisecond timestamp,
`sgv` the integer glucose value; `none` models a missing field. -/
structure Entry where
  date : Option ℤ
  sgv : Option ℤ
deriving DecidableEq

/-- Milliseconds in one calendar day. -/
def msPerDay : ℤ := 86400000

/-- `pd.to_datetime(ms, unit='ms').date()`: the UTC calendar day holding an
epoch-millisecond instant, as a day index since the epoch. -/
def dayKey (ms : ℤ) : ℤ := Int.fdiv ms msPerDay

/-- The group key of an entry: the UTC calendar day of its timestamp,
undefined when the timestamp is missing. -/
def keyOf (e : Entry) : Option ℤ := e.date.map dayKey

/-- Comparison used by `df.sort_values('dateTime')`: ascending timestamps
with missing timestamps (`NaT`) placed last. -/
def dtLeB : Entry → Entry → Bool
  | ⟨some x, _⟩, ⟨some y, _⟩ => x ≤ y
  | ⟨some _, _⟩, ⟨none, _⟩ => true
  | ⟨none, _⟩, ⟨some _, _⟩ => false
  | ⟨none, _⟩, ⟨none, _⟩ => true

/-- Propositional form of `dtLeB`. -/
def dtLe (a b : Entry) : Prop := dtLeB a b = true

instance : DecidableRel dtLe := fun a b => instDecidableEqBool (dtLeB a b) true

/-- `df = df.sort_values('dateTime')`. -/
def sortSeries (l : List Entry) : List Entry := List.insertionSort dtLe l

/-- The rows of the (sorted) table whose day key equals `k`, in table
order: one group produced by `df.groupby('date')`. -/
def groupOf (s : List Entry) (k : ℤ) : List Entry :=
  s.filter fun e => decide (keyOf e = some k)

/-- The distinct defined day keys of the table, in ascending order: the
iteration order of `df.groupby('date')` (which sorts keys and drops
missing ones). -/
def dayKeys (s : List Entry) : List ℤ :=
  List.insertionSort (fun a b => a ≤ b) (s.filterMap keyOf).dedup

/-- Lines 122-132 of the script: sort the table by timestamp, then group
it by UTC calendar day; the groups are iterated in ascending key order. -/
def sortAndPartition (l : List Entry) : List (ℤ × List Entry) :=
  (dayKeys (sortSeries l)).map fun k => (k, groupOf (sortSeries l) k)

/-- The glucose column of each day group, in iteration order: exactly the
data handed to the per-day derivative pipeline. -/
def dayInputs (l : List Entry) : List (ℤ × List (Option ℤ)) :=
  (sortAndPartition l).map fun p => (p.1, p.2.map Entry.sgv)

/-- Build the length-`n` column whose `i`-th cell is `f i`. -/
def tabulate (n : ℕ) (f : ℕ → Option ℚ) : List (Option ℚ) := (List.range n).map f

/-- Subtraction on cells, propagating undefined values (`NaN - x = NaN`). -/
def optSub : Option ℚ → Option ℚ → Option ℚ
  | some a, some b => some (a - b)
  | _, _ => none

/-- Mean of a window of four cells, undefined as soon as one cell is. -/
def optMean4 : Option ℚ → Option ℚ → Option ℚ → Option ℚ → Option ℚ
  | some a, some b, some c, some d => some ((a + b + c + d) / 4)
  | _, _, _, _ => none

/-- `Series.diff()`: cell 0 is undefined, cell `i` is the difference of
cells `i` and `i - 1`, undefined inputs propagating. -/
def seriesDiff (v : List (Option ℚ)) : List (Option ℚ) :=
  tabulate v.length fun i =>
    if i = 0 then none else optSub (v.getD i none) (v.getD (i - 1) none)

/-- `Series.rolling(window=4).mean()`: the trailing four-cell average,
undefined before four rows have accumulated (`min_periods` defaults to the
window size) and whenever the window holds an undefined cell. -/
def rolling4 (v : List (Option ℚ)) : List (Option ℚ) :=
  tabulate v.length fun i =>
    if i < 3 then none
    else optMean4 (v.getD (i - 3) none) (v.getD (i - 2) none)
      (v.getD (i - 1) none) (v.getD i none)

/-- Cast an integer glucose column to the rational column pandas arithmetic
works on. -/
def toQ (v : List (Option ℤ)) : List (Option ℚ) := v.map (Option.map fun z : ℤ => (z : ℚ))

/-- The four derived columns computed for one day group
(lines 144-162 of the script). -/
structure DerivedSignal where
  sgv_diff : List (Option ℚ)
  sgv_diff_smooth : List (Option ℚ)
  sgv_diff2 : List (Option ℚ)
  sgv_diff2_smooth : List (Option ℚ)
deriving DecidableEq

/-- The per-day derivative pipeline:
`sgv_diff = sgv.diff()`, `sgv_diff_smooth = sgv_diff.rolling(4).mean()`,
`sgv_diff2 = sgv_diff_smooth.diff()`,
`sgv_diff2_smooth = sgv_diff2.rolling(4).mean()`. -/
def processDay (v : List (Option ℤ)) : DerivedSignal :=
  let d := seriesDiff (toQ v)
  let ds := rolling4 d
  let d2 := seriesDiff ds
  let d2s := rolling4 d2
  ⟨d, ds, d2, d2s⟩

/-- The glucose values entering the statistics: the whole table's `sgv`
column with undefined cells skipped (pandas aggregations ignore `NaN`). -/
def statsInput (l : List Entry) : List ℤ := (l.map Entry.sgv).filterMap id

/-- `df['sgv'].min()` (undefined on an empty column). -/
def listMin : List ℤ → Option ℤ
  | [] => none
  | x :: xs => some (xs.foldl min x)

/-- `df['sgv'].max()` (undefined on an empty column). -/
def listMax : List ℤ → Option ℤ
  | [] => none
  | x :: xs => some (xs.foldl max x)

/-- `df['sgv'].mean()` (undefined on an empty column). -/
def listMean (v : List ℤ) : Option ℚ :=
  if v.isEmpty then none else some ((v.sum : ℚ) / v.length)

/-- The square of `df['sgv'].std()`: sample variance with `ddof = 1`,
undefined on fewer than two values. -/
def sampleVar (v : List ℤ) : Option ℚ :=
  if v.length ≤ 1 then none
  else some ((v.map fun x => ((x : ℚ) - (v.sum : ℚ) / v.length) ^ 2).sum / ((v.length : ℚ) - 1))

/-- The statistics panel rendered after the per-day charts: minimum,
maximum, arithmetic mean and sample standard deviation (held as its
square, the sample variance, to stay in ℚ) of the whole range. -/
structure SummaryStats where
  min : Option ℤ
  max : Option ℤ
  mean : Option ℚ
  var : Option ℚ
deriving DecidableEq

/-- Lines 173-178 of the script: the four aggregates of the full
(ungrouped) `sgv` column. -/
def computeStats (v : List ℤ) : SummaryStats :=
  ⟨listMin v, listMax v, listMean v, sampleVar v⟩

/-- What one fetch-and-render cycle shows: either the "no data" notice, or
one derived-signal block per day plus the range-wide statistics panel. -/
inductive Output where
  | noData : Output
  | report : List (ℤ × DerivedSignal) → SummaryStats → Output

/-- Lines 112-178 of the script: an empty entry list takes the warning
branch and produces nothing; otherwise the table is sorted, partitioned
into days, each day's column run through the derivative pipeline, and the
whole-range statistics computed. -/
def render (entries : List Entry) : Output :=
  if entries.isEmpty then Output.noData
  else
    Output.report
      ((sortAndPartition entries).map fun p => (p.1, processDay (p.2.map Entry.sgv)))
      (computeStats (statsInput entries))

/-- Modelled from the spec: the spec keys DayGroups by the calendar date
"in the observer's local time zone"; the observer's UTC offset (in
milliseconds) is an implicit parameter that does not appear in the code.
This definition follows the spec's words and is compared with `dayKey`,
which is what the code computes. -/
def localDayKey (tzOffsetMs : ℤ) (ms : ℤ) : ℤ := Int.fdiv (ms + tzOffsetMs) msPerDay

/-- A well-formed Series spanning two UTC days, used to instantiate the
general theorems. -/
def exSeries : List Entry :=
  [⟨some 86340000, some 100⟩, ⟨some 0, some 95⟩, ⟨some 90000000, some 110⟩]

/-- A Series holding one well-formed reading and one reading missing its
glucose value. -/
def exMalformed : List Entry := [⟨some 0, some 100⟩, ⟨some 60000, none⟩]

/-- A two-day Series carrying the spec's statistics example values
`[90, 100, 110, 120]`. -/
def exTwoDays : List Entry :=
  [⟨some 0, some 90⟩, ⟨some 3600000, some 100⟩,
    ⟨some 86400000, some 110⟩, ⟨some 90000000, some 120⟩]

/-! ## Basic facts about the column operations -/

theorem tabulate_length (n : ℕ) (f : ℕ → Option ℚ) : (tabulate n f).length = n := by
  simp [tabulate]

theorem tabulate_getD (n : ℕ) (f : ℕ → Option ℚ) (i : ℕ) :
    (tabulate n f).getD i none = if i < n then f i else none := by
  by_cases h : i < n
  · rw [List.getD_eq_getElem?_getD, tabulate, List.getElem?_map, List.getElem?_range h]
    simp [h]
  · have hle : (tabulate n f).length ≤ i := by
      rw [tabulate_length]; omega
    rw [List.getD_eq_getElem?_getD, List.getElem?_eq_none hle]
    simp [h]

theorem getD_none_of_le (w : List (Option ℚ)) (i : ℕ) (h : w.length ≤ i) :
    w.getD i none = none := by
  rw [List.getD_eq_getElem?_getD, List.getElem?_eq_none h]
  rfl

theorem seriesDiff_length (v : List (Option ℚ)) : (seriesDiff v).length = v.length :=
  tabulate_length _ _

theorem rolling4_length (v : List (Option ℚ)) : (rolling4 v).length = v.length :=
  tabulate_length _ _

theorem toQ_length (v : List (Option ℤ)) : (toQ v).length = v.length := by
  simp [toQ]

theorem optSub_none_right (a : Option ℚ) : optSub a none = none := by
  cases a <;> rfl

theorem optMean4_none_left (b c d : Option ℚ) : optMean4 none b c d = none := by
  cases b <;> cases c <;> cases d <;> rfl

theorem seriesDiff_getD_zero (v : List (Option ℚ)) :
    (seriesDiff v).getD 0 none = none := by
  rw [seriesDiff, tabulate_getD]
  split <;> simp

theorem seriesDiff_getD (v : List (Option ℚ)) (i : ℕ) (h1 : 1 ≤ i) (h : i < v.length) :
    (seriesDiff v).getD i none = optSub (v.getD i none) (v.getD (i - 1) none) := by
  rw [seriesDiff, tabulate_getD, if_pos h, if_neg (by omega)]

theorem seriesDiff_getD_none_right (v : List (Option ℚ)) (i : ℕ) (h1 : 1 ≤ i)
    (hn : v.getD (i - 1) none = none) : (seriesDiff v).getD i none = none := by
  by_cases h : i < v.length
  · rw [seriesDiff_getD v i h1 h, hn, optSub_none_right]
  · exact getD_none_of_le _ _ (by rw [seriesDiff_length]; omega)

theorem rolling4_getD_lt3 (v : List (Option ℚ)) (i : ℕ) (h : i < 3) :
    (rolling4 v).getD i none = none := by
  by_cases hl : i < v.length
  · rw [rolling4, tabulate_getD, if_pos hl, if_pos h]
  · exact getD_none_of_le _ _ (by rw [rolling4_length]; omega)

theorem rolling4_getD (v : List (Option ℚ)) (i : ℕ) (h3 : 3 ≤ i) (h : i < v.length) :
    (rolling4 v).getD i none =
      optMean4 (v.getD (i - 3) none) (v.getD (i - 2) none)
        (v.getD (i - 1) none) (v.getD i none) := by
  rw [rolling4, tabulate_getD, if_pos h, if_neg (by omega)]

theorem rolling4_getD_none (v : List (Option ℚ)) (i : ℕ) (h3 : 3 ≤ i)
    (hn : v.getD (i - 3) none = none) : (rolling4 v).getD i none = none := by
  by_cases h : i < v.length
  · rw [rolling4_getD v i h3 h, hn, optMean4_none_left]
  · exact getD_none_of_le _ _ (by rw [rolling4_length]; omega)

/-- The smoothed first derivative is undefined up to index 3: the first
windows contain the undefined cell `diff[0]`. -/
theorem diff_smooth_getD_le3 (v : List (Option ℚ)) (i : ℕ) (h : i ≤ 3) :
    (rolling4 (seriesDiff v)).getD i none = none := by
  rcases Nat.lt_or_ge i 3 with h3 | h3
  · exact rolling4_getD_lt3 _ _ h3
  · have hi : i = 3 := le_antisymm h h3
    subst hi
    exact rolling4_getD_none _ _ le_rfl (seriesDiff_getD_zero v)

/-- The second derivative is undefined up to index 4. -/
theorem diff2_getD_le4 (v : List (Option ℚ)) (j : ℕ) (h : j ≤ 4) :
    (seriesDiff (rolling4 (seriesDiff v))).getD j none = none := by
  rcases Nat.eq_zero_or_pos j with h0 | h1
  · subst h0
    exact seriesDiff_getD_zero _
  · exact seriesDiff_getD_none_right _ _ h1 (diff_smooth_getD_le3 v (j - 1) (by omega))

/-- The smoothed second derivative is undefined up to index 7. -/
theorem diff2_smooth_getD_le7 (v : List (Option ℚ)) (i : ℕ) (h : i ≤ 7) :
    (rolling4 (seriesDiff (rolling4 (seriesDiff v)))).getD i none = none := by
  rcases Nat.lt_or_ge i 3 with h3 | h3
  · exact rolling4_getD_lt3 _ _ h3
  · exact rolling4_getD_none _ _ h3 (diff2_getD_le4 v (i - 3) (by omega))

theorem toQ_map_some_getD (v : List ℤ) (i : ℕ) (h : i < v.length) :
    (toQ (v.map some)).getD i none = some ((v.getD i 0 : ℤ) : ℚ) := by
  rw [List.getD_eq_getElem?_getD, toQ, List.getElem?_map, List.getElem?_map,
    List.getElem?_eq_getElem h, List.getD_eq_getElem v 0 h]
  rfl

/-! ## Basic facts about sorting and grouping -/

theorem mem_sortSeries (l : List Entry) (e : Entry) : e ∈ sortSeries l ↔ e ∈ l :=
  (List.perm_insertionSort dtLe l).mem_iff

theorem mem_dayKeys (s : List Entry) (k : ℤ) :
    k ∈ dayKeys s ↔ ∃ e ∈ s, keyOf e = some k := by
  rw [dayKeys, (List.perm_insertionSort _ _).mem_iff, List.mem_dedup, List.mem_filterMap]

theorem nodup_dayKeys (s : List Entry) : (dayKeys s).Nodup :=
  ((List.perm_insertionSort _ _).symm).nodup (List.nodup_dedup _)

theorem sorted_dayKeys (s : List Entry) : (dayKeys s).Sorted fun a b => a ≤ b :=
  List.sorted_insertionSort _ _

theorem mem_groupOf (s : List Entry) (k : ℤ) (e : Entry) :
    e ∈ groupOf s k ↔ e ∈ s ∧ keyOf e = some k := by
  simp [groupOf, List.mem_filter]

theorem mem_groupOf_of_date (l : List Entry) (e : Entry) (he : e ∈ l) (d : ℤ)
    (hd : e.date = some d) : e ∈ groupOf (sortSeries l) (dayKey d) := by
  rw [mem_groupOf, mem_sortSeries]
  exact ⟨he, by simp [keyOf, hd]⟩

theorem dayKey_mem_dayKeys (l : List Entry) (e : Entry) (he : e ∈ l) (d : ℤ)
    (hd : e.date = some d) : dayKey d ∈ dayKeys (sortSeries l) := by
  rw [mem_dayKeys]
  exact ⟨e, (mem_sortSeries l e).mpr he, by simp [keyOf, hd]⟩

theorem count_groupOf (s : List Entry) (k : ℤ) (a : Entry) :
    (groupOf s k).count a = if keyOf a = some k then s.count a else 0 := by
  by_cases h : keyOf a = some k
  · rw [if_pos h, groupOf, List.count_filter (by simp [h])]
  · rw [if_neg h, List.count_eq_zero]
    intro hm
    exact h ((mem_groupOf s k a).mp hm).2

theorem sum_map_ite_count (keys : List ℤ) (k₀ : ℤ) (c : ℕ) (hnd : keys.Nodup)
    (hk : k₀ ∈ keys) : (keys.map fun k => if k₀ = k then c else 0).sum = c := by
  induction keys with
  | nil => cases hk
  | cons k ks ih =>
    rw [List.map_cons, List.sum_cons]
    rcases List.mem_cons.mp hk with rfl | hk2
    · rw [if_pos rfl]
      have hz : (ks.map fun k => if k₀ = k then c else 0).sum = 0 := by
        apply List.sum_eq_zero
        intro x hx
        rcases List.mem_map.mp hx with ⟨q, hq, rfl⟩
        have hne : k₀ ≠ q := fun hcontra => (List.nodup_cons.mp hnd).1 (hcontra ▸ hq)
        rw [if_neg hne]
      rw [hz, Nat.add_zero]
    · have hne : k₀ ≠ k := by
        intro hcontra
        subst hcontra
        exact (List.nodup_cons.mp hnd).1 hk2
      rw [if_neg hne, ih (List.nodup_cons.mp hnd).2 hk2, Nat.zero_add]

/-- Grouping the sorted table by day key splits it into groups whose
concatenation is a permutation of the original Series, provided every
reading carries a timestamp. -/
theorem partition_flatten_perm (l : List Entry) (h : ∀ e ∈ l, e.date ≠ none) :
    (((sortAndPartition l).map Prod.snd).flatten).Perm l := by
  have hmaps : (sortAndPartition l).map Prod.snd
      = (dayKeys (sortSeries l)).map fun k => groupOf (sortSeries l) k := by
    rw [sortAndPartition, List.map_map]
    rfl
  rw [hmaps]
  refine List.perm_iff_count.mpr fun a => ?_
  rw [List.count_flatten, List.map_map]
  have hcl : (sortSeries l).count a = l.count a :=
    (List.perm_insertionSort dtLe l).count_eq a
  by_cases ha : a ∈ l
  · obtain ⟨d, hd⟩ : ∃ d, a.date = some d := by
      cases hda : a.date with
      | none => exact absurd hda (h a ha)
      | some d => exact ⟨d, rfl⟩
    have hk : keyOf a = some (dayKey d) := by simp [keyOf, hd]
    have hmem : dayKey d ∈ dayKeys (sortSeries l) := dayKey_mem_dayKeys l a ha d hd
    have hstep : ((dayKeys (sortSeries l)).map
          ((fun g => List.count a g) ∘ fun k => groupOf (sortSeries l) k))
        = (dayKeys (sortSeries l)).map fun k => if dayKey d = k then l.count a else 0 := by
      apply List.map_congr_left
      intro k hkmem
      simp only [Function.comp_apply]
      rw [count_groupOf, hk, hcl]
      simp
    rw [hstep, sum_map_ite_count _ _ _ (nodup_dayKeys _) hmem]
  · have hc0 : l.count a = 0 := List.count_eq_zero.mpr ha
    rw [hc0]
    apply List.sum_eq_zero
    intro x hx
    rcases List.mem_map.mp hx with ⟨k, hkmem, rfl⟩
    simp only [Function.comp_apply]
    rw [show List.count a (groupOf (sortSeries l) k) = (groupOf (sortSeries l) k).count a from rfl,
      count_groupOf, hcl, hc0]
    split <;> rfl

/-! ## Claim theorems -/

/-- C8: an empty fetched result set is not an error path: the render
cycle takes the "no data" branch, producing no day charts and no
statistics panel. -/
theorem empty_input_no_data : render [] = Output.noData := rfl

/-- C9: the whole pipeline (sort, partition, differencing, smoothing,
statistics) is a deterministic pure function of the fetched Series: two
runs on identical input yield an identical partition into DayGroups,
identical statistics, and an identical rendered output. -/
theorem pipeline_deterministic (l₁ l₂ : List Entry) (h : l₁ = l₂) :
    render l₁ = render l₂ ∧ sortAndPartition l₁ = sortAndPartition l₂ ∧
    computeStats (statsInput l₁) = computeStats (statsInput l₂) := by
  subst h
  exact ⟨rfl, rfl, rfl⟩

theorem pipeline_deterministic_witness : render exTwoDays = render exTwoDays :=
  (pipeline_deterministic exTwoDays exTwoDays rfl).1

/-- C4: sort-and-partition is an exact partition of the Series: for a
Series of well-formed readings the concatenation of all DayGroups is a
permutation of the Series (so every reading appears, and exactly once,
since group membership is determined by the reading's day key and the
group keys are distinct), every DayGroup is a sublist of the sorted
Series (preserving its order), and the empty Series yields an empty
result. -/
theorem sort_and_partition_exact (l : List Entry) (h : ∀ e ∈ l, e.date ≠ none) :
    (((sortAndPartition l).map Prod.snd).flatten).Perm l ∧
    (∀ p ∈ sortAndPartition l, p.2.Sublist (sortSeries l)) ∧
    (∀ p ∈ sortAndPartition l, ∀ e ∈ p.2, keyOf e = some p.1) ∧
    ((sortAndPartition l).map Prod.fst).Nodup ∧
    sortAndPartition [] = [] := by
  refine ⟨partition_flatten_perm l h, ?_, ?_, ?_, rfl⟩
  · intro p hp
    rcases List.mem_map.mp hp with ⟨k, hk, rfl⟩
    exact List.filter_sublist _
  · intro p hp e he
    rcases List.mem_map.mp hp with ⟨k, hk, rfl⟩
    exact ((mem_groupOf _ _ _).mp he).2
  · have hfst : (sortAndPartition l).map Prod.fst = dayKeys (sortSeries l) := by
      rw [sortAndPartition, List.map_map]
      simp [Function.comp_def]
    rw [hfst]
    exact nodup_dayKeys _

theorem sort_and_partition_exact_witness :
    (∀ e ∈ exSeries, e.date ≠ none) ∧
    (((sortAndPartition exSeries).map Prod.snd).flatten).Perm exSeries :=
  ⟨by decide, (sort_and_partition_exact exSeries (by decide)).1⟩

/-- C3 (amended): the DayGroup key of a reading is the UTC calendar date
of its timestamp — the epoch-millisecond value floor-divided into
86,400,000 ms days — not the date in the observer's local time zone, and
the DayGroups are produced and iterated in ascending, duplicate-free key
order. -/
theorem daygroup_key_utc_ascending (l : List Entry) :
    (∀ e ∈ l, ∀ d : ℤ, e.date = some d →
      e ∈ groupOf (sortSeries l) (dayKey d) ∧
      (dayKey d, groupOf (sortSeries l) (dayKey d)) ∈ sortAndPartition l) ∧
    ((sortAndPartition l).map Prod.fst).Sorted (fun a b => a ≤ b) ∧
    ((sortAndPartition l).map Prod.fst).Nodup := by
  have hfst : (sortAndPartition l).map Prod.fst = dayKeys (sortSeries l) := by
    rw [sortAndPartition, List.map_map]
    simp [Function.comp_def]
  refine ⟨fun e he d hd => ⟨mem_groupOf_of_date l e he d hd, ?_⟩, ?_, ?_⟩
  · rw [sortAndPartition]
    exact List.mem_map.mpr ⟨dayKey d, dayKey_mem_dayKeys l e he d hd, rfl⟩
  · rw [hfst]
    exact sorted_dayKeys _
  · rw [hfst]
    exact nodup_dayKeys _

theorem daygroup_key_utc_ascending_witness :
    Entry.mk (some 86340000) (some 100) ∈ groupOf (sortSeries exSeries) (dayKey 86340000) :=
  ((daygroup_key_utc_ascending exSeries).1 ⟨some 86340000, some 100⟩ (by decide)
    86340000 rfl).1

/-- C3 counterexample: the reading at epoch 86,340,000 ms (23:59 UTC on
day 0) is grouped by the code under UTC day 0, while for an observer at
UTC+1 (offset 3,600,000 ms) the spec's local calendar date is day 1: the
code keys DayGroups by the UTC date, not the observer's local date. -/
theorem daygroup_key_not_local :
    sortAndPartition [⟨some 86340000, some 100⟩]
      = [(0, [⟨some 86340000, some 100⟩])] ∧
    dayKey 86340000 = 0 ∧
    localDayKey 3600000 86340000 = 1 ∧
    dayKey 86340000 ≠ localDayKey 3600000 86340000 := by
  refine ⟨by decide, by decide, by decide, by decide⟩

/-- C1 (amended): malformed readings are not excluded from the Series
before processing; instead their undefined fields propagate: a reading
with a defined timestamp is kept in its DayGroup even when its glucose
value is missing (so the per-day pipeline does receive it), a reading
with a missing timestamp belongs to no DayGroup (grouping drops
undefined keys) while the statistics input consists of exactly the
defined glucose values of the whole Series, malformed or not. -/
theorem malformed_readings_handling (l : List Entry) :
    (∀ e ∈ l, ∀ d : ℤ, e.date = some d → e ∈ groupOf (sortSeries l) (dayKey d)) ∧
    (∀ e ∈ l, e.date = none → ∀ p ∈ sortAndPartition l, e ∉ p.2) ∧
    (∀ q : ℤ, q ∈ statsInput l ↔ ∃ e ∈ l, e.sgv = some q) := by
  refine ⟨fun e he d hd => mem_groupOf_of_date l e he d hd, ?_, ?_⟩
  · intro e he hd p hp hmem
    rcases List.mem_map.mp hp with ⟨k, hk, rfl⟩
    have hkey := ((mem_groupOf _ _ _).mp hmem).2
    rw [keyOf, hd] at hkey
    exact Option.noConfusion hkey
  · intro q
    simp [statsInput, List.mem_filterMap, List.mem_map]

theorem malformed_readings_handling_witness :
    Entry.mk (some 60000) none ∈ groupOf (sortSeries exMalformed) (dayKey 60000) :=
  (malformed_readings_handling exMalformed).1 ⟨some 60000, none⟩ (by decide) 60000 rfl

/-- C1 counterexample: in the Series with a well-formed reading at 0 ms
and a reading at 60,000 ms missing its glucose value, the malformed
reading is not excluded before processing: the single DayGroup's glucose
column handed to the per-day pipeline is `[some 100, none]`, so the
pipeline receives the partially-formed entry. -/
theorem malformed_reading_reaches_pipeline :
    dayInputs exMalformed = [(0, [some 100, none])] ∧
    Entry.mk (some 60000) none ∈ groupOf (sortSeries exMalformed) 0 ∧
    statsInput exMalformed = [100] := by
  refine ⟨by decide, by decide, by decide⟩

/-- C5: for a fully-defined day column the first derivative is undefined
at index 0 and equals `value[i] - value[i-1]` for every `i ≥ 1`; its
trailing window-4 smoothing is undefined at every index below 4 (the
undefined `diff[0]` occupies the first windows); and on the day
`[100,105,95,110,108,120,115]` the first defined smoothed value, at
index 4, is `(5 - 10 + 15 - 2)/4 = 2`. -/
theorem first_derivative_smoothing_spec (v : List ℤ) :
    (processDay (v.map some)).sgv_diff.getD 0 none = none ∧
    (∀ i : ℕ, 1 ≤ i → i < v.length →
      (processDay (v.map some)).sgv_diff.getD i none
        = some ((v.getD i 0 : ℚ) - (v.getD (i - 1) 0 : ℚ))) ∧
    (∀ i : ℕ, i < 4 → (processDay (v.map some)).sgv_diff_smooth.getD i none = none) ∧
    (processDay ([100, 105, 95, 110, 108, 120, 115].map some)).sgv_diff_smooth.getD 4 none
      = some 2 := by
  refine ⟨?_, ?_, ?_, ?_⟩
  · simp only [processDay]
    exact seriesDiff_getD_zero _
  · intro i h1 h
    simp only [processDay]
    have hlen : i < (toQ (v.map some)).length := by
      rw [toQ_length, List.length_map]
      exact h
    rw [seriesDiff_getD _ i h1 hlen, toQ_map_some_getD v i h,
      toQ_map_some_getD v (i - 1) (by omega)]
    rfl
  · intro i h
    simp only [processDay]
    exact diff_smooth_getD_le3 _ i (by omega)
  · norm_num [processDay, rolling4, seriesDiff, tabulate, optSub, optMean4, toQ,
      List.range_succ]

theorem first_derivative_smoothing_spec_witness :
    (processDay (([100, 105, 95, 110] : List ℤ).map some)).sgv_diff.getD 1 none
      = some ((([100, 105, 95, 110] : List ℤ).getD 1 0 : ℚ)
        - (([100, 105, 95, 110] : List ℤ).getD 0 0 : ℚ)) :=
  (first_derivative_smoothing_spec [100, 105, 95, 110]).2.1 1 (by decide) (by decide)

/-- C6: the second derivative column is obtained by differencing the
smoothed first-derivative column (not the raw first derivative), with
undefined inputs propagating, and its smoothing is the same trailing
window-4 rolling mean: `sgv_diff2 = sgv_diff_smooth.diff()` and
`sgv_diff2_smooth = sgv_diff2.rolling(4).mean()`, pointwise
`diff2[i] = smoothed_diff[i] - smoothed_diff[i-1]`; on the day
`[100,105,95,110,108,120,115]` the second derivative at index 5 is
`15/4 - 2 = 7/4`, which differs from the raw difference
`diff[5] - diff[4] = 12 - (-2) = 14`. -/
theorem second_derivative_spec (v : List (Option ℤ)) :
    (processDay v).sgv_diff2 = seriesDiff (processDay v).sgv_diff_smooth ∧
    (processDay v).sgv_diff2_smooth = rolling4 (processDay v).sgv_diff2 ∧
    (∀ i : ℕ, 1 ≤ i → i < v.length → ∀ a b : ℚ,
      (processDay v).sgv_diff_smooth.getD i none = some a →
      (processDay v).sgv_diff_smooth.getD (i - 1) none = some b →
      (processDay v).sgv_diff2.getD i none = some (a - b)) ∧
    (∀ i : ℕ, 1 ≤ i → (processDay v).sgv_diff_smooth.getD (i - 1) none = none →
      (processDay v).sgv_diff2.getD i none = none) ∧
    ((processDay ([100, 105, 95, 110, 108, 120, 115].map some)).sgv_diff2.getD 5 none
        = some (7 / 4)
      ∧ (7 : ℚ) / 4 ≠ 12 - (-2)) := by
  refine ⟨rfl, rfl, ?_, ?_, ?_, by norm_num⟩
  · intro i h1 h a b ha hb
    simp only [processDay] at ha hb ⊢
    have hlen : i < (rolling4 (seriesDiff (toQ v))).length := by
      rw [rolling4_length, seriesDiff_length, toQ_length]
      exact h
    rw [seriesDiff_getD _ i h1 hlen, ha, hb]
    rfl
  · intro i h1 hn
    simp only [processDay] at hn ⊢
    exact seriesDiff_getD_none_right _ i h1 hn
  · norm_num [processDay, rolling4, seriesDiff, tabulate, optSub, optMean4, toQ,
      List.range_succ]

set_option maxHeartbeats 1600000 in
theorem second_derivative_spec_witness :
    (processDay (([100, 105, 95, 110, 108, 120, 115] : List ℤ).map some)).sgv_diff2.getD
      5 none = some (15 / 4 - 2) :=
  (second_derivative_spec (([100, 105, 95, 110, 108, 120, 115] : List ℤ).map some)).2.2.1
    5 (by decide) (by decide) (15 / 4) 2
    (by norm_num [processDay, rolling4, seriesDiff, tabulate, optSub, optMean4, toQ,
      List.range_succ])
    (by norm_num [processDay, rolling4, seriesDiff, tabulate, optSub, optMean4, toQ,
      List.range_succ])

/-- C7: the summary statistics are taken over the whole (ungrouped)
Series: for the two-day Series carrying the values `[90,100,110,120]`
the statistics input is the full pooled value list even though the
readings split into two DayGroups, and its statistics are `min = 90`,
`max = 120`, `mean = 105` (rendered `105.00`) and sample variance
`500/3`, whose square root — the sample standard deviation — lies
strictly between `12.905` and `12.915` and therefore renders as `12.91`
at two decimal places. -/
theorem summary_statistics_spec :
    statsInput exTwoDays = [90, 100, 110, 120] ∧
    (dayInputs exTwoDays).length = 2 ∧
    computeStats [90, 100, 110, 120]
      = ⟨some 90, some 120, some 105, some (500 / 3)⟩ ∧
    (12905 / 1000 : ℝ) < Real.sqrt (500 / 3) ∧
    Real.sqrt (500 / 3) < 12915 / 1000 := by
  refine ⟨by decide, by decide, ?_, ?_, ?_⟩
  · simp only [computeStats, listMin, listMax, listMean, sampleVar, SummaryStats.mk.injEq]
    norm_num
  · rw [Real.lt_sqrt (by norm_num)]
    norm_num
  · rw [Real.sqrt_lt' (by norm_num)]
    norm_num

/-- C10 (implicit): the smoothed second derivative is undefined at every
index below 8 of the day's column — the first derivative is defined from
index 1, its smoothing from index 4, the second derivative from index 5,
so the first full window of defined second-derivative values only
completes at index 8 — and a day with fewer than 9 readings has an
entirely undefined smoothed second derivative. -/
theorem second_smooth_undefined_below_eight (v : List (Option ℤ)) :
    (∀ i : ℕ, i < 8 → (processDay v).sgv_diff2_smooth.getD i none = none) ∧
    (v.length < 9 → ∀ i : ℕ, (processDay v).sgv_diff2_smooth.getD i none = none) := by
  have key : ∀ i : ℕ, i < 8 → (processDay v).sgv_diff2_smooth.getD i none = none := by
    intro i hi
    simp only [processDay]
    exact diff2_smooth_getD_le7 (toQ v) i (by omega)
  refine ⟨key, fun hlen i => ?_⟩
  by_cases h : i < 8
  · exact key i h
  · simp only [processDay]
    apply getD_none_of_le
    rw [rolling4_length, seriesDiff_length, rolling4_length, seriesDiff_length, toQ_length]
    omega

theorem second_smooth_undefined_below_eight_witness :
    (processDay (([100, 105, 95, 110, 108, 120, 115, 130, 125] : List ℤ).map
      some)).sgv_diff2_smooth.getD 7 none = none :=
  (second_smooth_undefined_below_eight
    (([100, 105, 95, 110, 108, 120, 115, 130, 125] : List ℤ).map some)).1 7 (by decide)

end Nightscout
